import Mathlib

/-!
# Ping-pong between two MPI processes (`src/main.cpp`)

Shallow embedding of `main`: one process is a record of its local variables, its
control location and what it has printed; the two-process system is the pair of
processes together with the messages in flight. A process takes one step at a time
(`procStep`), a scheduler picks which process moves (`sysStep`, `runSched`).
-/

namespace PingPong

/-! ## Data model -/

/-- The compiled-in round limit, `#define PING_PONG_LIMIT 10`. -/
def PING_PONG_LIMIT : Int := 10

/-- Largest value of a C `int` (32 bits). -/
def INT_MAX : Int := 2147483647

/-- The value a 32-bit `int` holds after the arithmetic result `x` is stored in it
(two's complement wrap-around). -/
def wrapInt (x : Int) : Int := (x + 2147483648) % 4294967296 - 2147483648

/-- A line written to `std::cout`. -/
inductive Line
  | sent (rank count partner : Int)
  | received (rank count partner : Int)
  | finished (rank count : Int)
  deriving DecidableEq, Repr

/-- Control location of a process inside `main`. -/
inductive Pc
  /-- at the test of the `while` loop (line 32) -/
  | loop
  /-- inside `MPI_Send` (line 38): the message is posted, the call has not returned -/
  | inSend
  /-- `main` has returned with this exit status -/
  | exited (code : Int)
  deriving DecidableEq, Repr

/-- A message in flight: `MPI_Send(&val, 1, MPI_INT, dst, 0, MPI_COMM_WORLD)` issued by `src`. -/
structure Msg where
  src : Int
  dst : Int
  val : Int
  deriving DecidableEq, Repr

/-- A communication operation, recorded in the history of the system. -/
inductive Event
  /-- `src` handed `val` to the transport, addressed to `dst` -/
  | send (src dst val : Int)
  /-- `dst` took `val`, sent by `src`, out of the transport -/
  | recv (dst src val : Int)
  deriving DecidableEq, Repr

/-- One process running `main`: its local variables, where it is, what it printed.
`hist` is a history variable: the value of `ping_pong_count` at the end of each
completed iteration of the `while` loop. -/
structure Proc where
  world_size : Int
  world_rank : Int
  ping_pong_count : Int
  partner_rank : Int
  pc : Pc
  out : List Line
  err : List String
  hist : List Int
  deriving DecidableEq, Repr

/-- The two lines of the usage error written to `std::cerr` (lines 22-23). -/
def usageError : List String :=
  ["Error: This application requires exactly 2 MPI processes.",
   "Usage: mpirun -np 2 ./ping_pong"]

/-- Lines 9-30 of `main`: start-up, the check on the number of processes, and the
initialisation of `ping_pong_count` and `partner_rank`. When the check fails the
process has already returned 1 (the two locals are never declared; they read 0 here). -/
def mainEntry (world_size world_rank : Int) : Proc :=
  if world_size ≠ 2 then
    { world_size := world_size, world_rank := world_rank,
      ping_pong_count := 0, partner_rank := 0,
      pc := Pc.exited 1, out := [],
      err := if world_rank = 0 then usageError else [],
      hist := [] }
  else
    { world_size := world_size, world_rank := world_rank,
      ping_pong_count := 0,
      partner_rank := (wrapInt (world_rank + 1)).tmod 2,
      pc := Pc.loop, out := [], err := [], hist := [] }

/-! ## Transport -/

/-- What `MPI_Recv(…, src, 0, MPI_COMM_WORLD, …)` called by `dst` takes: the oldest
message in flight from `src` to `dst`, if there is one, and the messages left. -/
def takeFrom (src dst : Int) : List Msg → Option (Int × List Msg)
  | [] => none
  | m :: ms =>
    if m.src = src ∧ m.dst = dst then some (m.val, ms)
    else (takeFrom src dst ms).map (fun r => (r.1, m :: r.2))

/-- Whether a message from `src` to `dst` is still in flight. -/
def pending (src dst : Int) (net : List Msg) : Bool :=
  net.any (fun m => decide (m.src = src ∧ m.dst = dst))

/-! ## One step of one process -/

/-- One step of a process inside the loop of `main` (lines 32-57), given the messages
in flight. The result is the process after the step, the messages in flight after it,
and the communication events of the step; `none` when the process cannot move
(it is blocked in `MPI_Recv` or `MPI_Send`, or has returned).

`sync = false`: `MPI_Send` returns as soon as the message is handed to the transport.
`sync = true`: `MPI_Send` returns only once the partner has received the message. -/
def procStep (limit : Int) (sync : Bool) (p : Proc) (net : List Msg) :
    Option (Proc × List Msg × List Event) :=
  match p.pc with
  | Pc.exited _ => none
  | Pc.inSend =>
    if sync = true ∧ pending p.world_rank p.partner_rank net = true then none
    else
      some ({ p with
                pc := Pc.loop,
                out := p.out ++ [Line.sent p.world_rank p.ping_pong_count p.partner_rank],
                hist := p.hist ++ [p.ping_pong_count] },
            net, [])
  | Pc.loop =>
    if p.ping_pong_count < limit then
      if p.world_rank = p.ping_pong_count.tmod 2 then
        let c := wrapInt (p.ping_pong_count + 1)
        some ({ p with ping_pong_count := c, pc := Pc.inSend },
              net ++ [Msg.mk p.world_rank p.partner_rank c],
              [Event.send p.world_rank p.partner_rank c])
      else
        match takeFrom p.partner_rank p.world_rank net with
        | none => none
        | some (v, rest) =>
          some ({ p with
                    ping_pong_count := v,
                    out := p.out ++ [Line.received p.world_rank v p.partner_rank],
                    hist := p.hist ++ [v] },
                rest, [Event.recv p.world_rank p.partner_rank v])
    else
      some ({ p with
                pc := Pc.exited 0,
                out := p.out ++ [Line.finished p.world_rank p.ping_pong_count] },
            net, [])

/-! ## The two-process system -/

/-- The system launched with two processes: the process of rank 0, the process of
rank 1, the messages in flight (oldest first) and the history of communication events. -/
structure Sys where
  p0 : Proc
  p1 : Proc
  net : List Msg
  trace : List Event
  deriving DecidableEq, Repr

/-- Which of the two processes the scheduler lets move. -/
inductive Who
  | r0
  | r1
  deriving DecidableEq, Repr

/-- The system right after both processes passed the check of line 20. -/
def initSys : Sys :=
  { p0 := mainEntry 2 0, p1 := mainEntry 2 1, net := [], trace := [] }

/-- One step of the system: the chosen process takes its step, if it can. -/
def sysStep (limit : Int) (sync : Bool) (s : Sys) : Who → Option Sys
  | Who.r0 =>
    match procStep limit sync s.p0 s.net with
    | none => none
    | some (p, net, ev) => some { s with p0 := p, net := net, trace := s.trace ++ ev }
  | Who.r1 =>
    match procStep limit sync s.p1 s.net with
    | none => none
    | some (p, net, ev) => some { s with p1 := p, net := net, trace := s.trace ++ ev }

/-- Run the system along a schedule; `none` if a scheduled process cannot move. -/
def runSched (limit : Int) (sync : Bool) : List Who → Sys → Option Sys
  | [], s => some s
  | w :: ws, s =>
    match sysStep limit sync s w with
    | none => none
    | some t => runSched limit sync ws t

/-- No process can move. -/
def Stuck (limit : Int) (sync : Bool) (s : Sys) : Prop :=
  ∀ w, sysStep limit sync s w = none

/-- Both processes have returned from `main`. -/
def BothExited (s : Sys) : Prop :=
  (∃ c, s.p0.pc = Pc.exited c) ∧ (∃ c, s.p1.pc = Pc.exited c)

/-- Values of the messages `src` handed to the transport, oldest first. -/
def sentVals (src : Int) : List Event → List Int
  | [] => []
  | Event.send a _ v :: es => if a = src then v :: sentVals src es else sentVals src es
  | Event.recv _ _ _ :: es => sentVals src es

/-- Values `dst` received, oldest first. -/
def recvVals (dst : Int) : List Event → List Int
  | [] => []
  | Event.recv a _ v :: es => if a = dst then v :: recvVals dst es else recvVals dst es
  | Event.send _ _ _ :: es => recvVals dst es

/-- All values received by either process, in the order of reception. -/
def allRecv : List Event → List Int
  | [] => []
  | Event.recv _ _ v :: es => v :: allRecv es
  | Event.send _ _ _ :: es => allRecv es

/-- The schedule of a complete exchange of `n` rounds: in each round the sender posts,
the receiver receives, the sender returns from the send; then both leave the loop. -/
def roundRobin : Nat → Who → List Who
  | 0, _ => [Who.r0, Who.r1]
  | n + 1, Who.r0 => Who.r0 :: Who.r1 :: Who.r0 :: roundRobin n Who.r1
  | n + 1, Who.r1 => Who.r1 :: Who.r0 :: Who.r1 :: roundRobin n Who.r0

/-- Lines of `out` that report a send, as the list of the values sent. -/
def sentLog : List Line → List Int
  | [] => []
  | Line.sent _ c _ :: ls => c :: sentLog ls
  | Line.received _ _ _ :: ls => sentLog ls
  | Line.finished _ _ :: ls => sentLog ls

/-- Lines of `out` that report a reception, as the list of the values received. -/
def recvLog : List Line → List Int
  | [] => []
  | Line.sent _ _ _ :: ls => recvLog ls
  | Line.received _ c _ :: ls => c :: recvLog ls
  | Line.finished _ _ :: ls => recvLog ls

/-- The final counts reported (the closing line of line 52). -/
def finalLog : List Line → List Int
  | [] => []
  | Line.sent _ _ _ :: ls => finalLog ls
  | Line.received _ _ _ :: ls => finalLog ls
  | Line.finished _ c :: ls => c :: finalLog ls

/-- Whether an event is a send. -/
def isSend : Event → Bool
  | Event.send _ _ _ => true
  | Event.recv _ _ _ => false

/-- Whether an event is a reception. -/
def isRecv : Event → Bool
  | Event.send _ _ _ => false
  | Event.recv _ _ _ => true

/-- Number of messages handed to the transport so far. -/
def numSends (tr : List Event) : Nat := tr.countP isSend

/-- Number of messages received so far. -/
def numRecvs (tr : List Event) : Nat := tr.countP isRecv

/-- The state in which the exchange of `PING_PONG_LIMIT = 10` rounds ends. -/
def finalSys : Sys :=
  { p0 :=
      { world_size := 2, world_rank := 0, ping_pong_count := 10, partner_rank := 1,
        pc := Pc.exited 0,
        out := [Line.sent 0 1 1, Line.received 0 2 1, Line.sent 0 3 1,
               Line.received 0 4 1, Line.sent 0 5 1, Line.received 0 6 1,
               Line.sent 0 7 1, Line.received 0 8 1, Line.sent 0 9 1,
               Line.received 0 10 1, Line.finished 0 10],
        err := [],
        hist := [1, 2, 3, 4, 5, 6, 7, 8, 9, 10] },
    p1 :=
      { world_size := 2, world_rank := 1, ping_pong_count := 10, partner_rank := 0,
        pc := Pc.exited 0,
        out := [Line.received 1 1 0, Line.sent 1 2 0, Line.received 1 3 0,
               Line.sent 1 4 0, Line.received 1 5 0, Line.sent 1 6 0,
               Line.received 1 7 0, Line.sent 1 8 0, Line.received 1 9 0,
               Line.sent 1 10 0, Line.finished 1 10],
        err := [],
        hist := [1, 2, 3, 4, 5, 6, 7, 8, 9, 10] },
    net := [],
    trace := [Event.send 0 1 1, Event.recv 1 0 1, Event.send 1 0 2, Event.recv 0 1 2,
             Event.send 0 1 3, Event.recv 1 0 3, Event.send 1 0 4, Event.recv 0 1 4,
             Event.send 0 1 5, Event.recv 1 0 5, Event.send 1 0 6, Event.recv 0 1 6,
             Event.send 0 1 7, Event.recv 1 0 7, Event.send 1 0 8, Event.recv 0 1 8,
             Event.send 0 1 9, Event.recv 1 0 9, Event.send 1 0 10,
             Event.recv 0 1 10] }

/-- The state in which an exchange of 3 rounds ends (an odd limit in place of
`PING_PONG_LIMIT`). -/
def finalSysThree : Sys :=
  { p0 :=
      { world_size := 2, world_rank := 0, ping_pong_count := 3, partner_rank := 1,
        pc := Pc.exited 0,
        out := [Line.sent 0 1 1, Line.received 0 2 1, Line.sent 0 3 1,
                Line.finished 0 3],
        err := [],
        hist := [1, 2, 3] },
    p1 :=
      { world_size := 2, world_rank := 1, ping_pong_count := 3, partner_rank := 0,
        pc := Pc.exited 0,
        out := [Line.received 1 1 0, Line.sent 1 2 0, Line.received 1 3 0,
                Line.finished 1 3],
        err := [],
        hist := [1, 2, 3] },
    net := [],
    trace := [Event.send 0 1 1, Event.recv 1 0 1, Event.send 1 0 2,
              Event.recv 0 1 2, Event.send 0 1 3, Event.recv 1 0 3] }

/-- The state after the process of rank 0 has posted its first message and before
`MPI_Send` has returned. -/
def midSys : Sys :=
  { p0 :=
      { world_size := 2, world_rank := 0, ping_pong_count := 1, partner_rank := 1,
        pc := Pc.inSend, out := [], err := [], hist := [] },
    p1 := mainEntry 2 1,
    net := [Msg.mk 0 1 1],
    trace := [Event.send 0 1 1] }

/-- The state after the process of rank 1 has received that first message. -/
def midSysRecv : Sys :=
  { p0 := midSys.p0,
    p1 :=
      { world_size := 2, world_rank := 1, ping_pong_count := 1, partner_rank := 0,
        pc := Pc.loop, out := [Line.received 1 1 0], err := [], hist := [1] },
    net := [],
    trace := [Event.send 0 1 1, Event.recv 1 0 1] }

/-- A quantity every step increases: events recorded plus lines printed. -/
def progressMeasure (s : Sys) : Nat :=
  s.trace.length + s.p0.out.length + s.p1.out.length

/-! ## The shape of the reachable states -/

/-- The line the process of rank `r` prints at the end of its iteration `i` (0-indexed). -/
def iterLine (r : Int) (i : Nat) : Line :=
  if r = (i : Int) % 2 then Line.sent r ((i : Int) + 1) ((r + 1) % 2)
  else Line.received r ((i : Int) + 1) ((r + 1) % 2)

/-- The lines of the first `k` iterations of the process of rank `r`. -/
def expOut (r : Int) (k : Nat) : List Line := (List.range k).map (iterLine r)

/-- The counter values at the end of the first `k` iterations. -/
def expHist (k : Nat) : List Int := (List.range k).map (fun (i : Nat) => (i : Int) + 1)

/-- The `j`-th communication event of the exchange: round `j / 2`, its send when `j`
is even and its reception when `j` is odd. -/
def expEvent (j : Nat) : Event :=
  if j % 2 = 0 then
    Event.send (((j / 2 : Nat) : Int) % 2) ((((j / 2 : Nat) : Int) + 1) % 2) (((j / 2 : Nat) : Int) + 1)
  else
    Event.recv ((((j / 2 : Nat) : Int) + 1) % 2) (((j / 2 : Nat) : Int) % 2) (((j / 2 : Nat) : Int) + 1)

/-- The first `m` communication events of the exchange. -/
def expTrace (m : Nat) : List Event := (List.range m).map expEvent

/-- How far the counter of a process is ahead of its number of completed iterations:
by one inside `MPI_Send` (incremented, iteration not finished), by zero elsewhere. -/
def ahead : Pc → Nat
  | Pc.inSend => 1
  | _ => 0

/-- The closing line, printed once the process has left the loop. -/
def closing (r c : Int) : Pc → List Line
  | Pc.exited _ => [Line.finished r c]
  | _ => []

/-- The messages in flight when the counters are `n0` and `n1`. -/
def netOf (n0 n1 : Nat) : List Msg :=
  if n0 = n1 + 1 then [Msg.mk 0 1 (n0 : Int)]
  else if n1 = n0 + 1 then [Msg.mk 1 0 (n1 : Int)]
  else []

/-- The invariant: a reachable state is determined by the numbers `k0`, `k1` of
iterations the two processes have completed and by their control locations. -/
structure Shape (limit : Int) (k0 k1 : Nat) (s : Sys) : Prop where
  size0 : s.p0.world_size = 2
  size1 : s.p1.world_size = 2
  rank0 : s.p0.world_rank = 0
  rank1 : s.p1.world_rank = 1
  partner0 : s.p0.partner_rank = 1
  partner1 : s.p1.partner_rank = 0
  err0 : s.p0.err = []
  err1 : s.p1.err = []
  cnt0 : s.p0.ping_pong_count = ((k0 + ahead s.p0.pc : Nat) : Int)
  cnt1 : s.p1.ping_pong_count = ((k1 + ahead s.p1.pc : Nat) : Int)
  le0 : ((k0 + ahead s.p0.pc : Nat) : Int) ≤ limit
  le1 : ((k1 + ahead s.p1.pc : Nat) : Int) ≤ limit
  pc0 : s.p0.pc = Pc.loop ∨ s.p0.pc = Pc.inSend ∨ (s.p0.pc = Pc.exited 0 ∧ (k0 : Int) = limit)
  pc1 : s.p1.pc = Pc.loop ∨ s.p1.pc = Pc.inSend ∨ (s.p1.pc = Pc.exited 0 ∧ (k1 : Int) = limit)
  snd0 : s.p0.pc = Pc.inSend → k0 % 2 = 0
  snd1 : s.p1.pc = Pc.inSend → k1 % 2 = 1
  near0 : k0 + ahead s.p0.pc ≤ k1 + ahead s.p1.pc + 1
  near1 : k1 + ahead s.p1.pc ≤ k0 + ahead s.p0.pc + 1
  lead0 : k0 + ahead s.p0.pc = k1 + ahead s.p1.pc + 1 → (k1 + ahead s.p1.pc) % 2 = 0
  lead1 : k1 + ahead s.p1.pc = k0 + ahead s.p0.pc + 1 → (k0 + ahead s.p0.pc) % 2 = 1
  net : s.net = netOf (k0 + ahead s.p0.pc) (k1 + ahead s.p1.pc)
  out0 : s.p0.out = expOut 0 k0 ++ closing 0 limit s.p0.pc
  out1 : s.p1.out = expOut 1 k1 ++ closing 1 limit s.p1.pc
  hist0 : s.p0.hist = expHist k0
  hist1 : s.p1.hist = expHist k1
  trace : s.trace = expTrace ((k0 + ahead s.p0.pc) + (k1 + ahead s.p1.pc))

theorem wrapInt_small (x : Int) (h0 : -2147483648 ≤ x) (h1 : x ≤ 2147483647) :
    wrapInt x = x := by
  unfold wrapInt
  omega

theorem expOut_succ (r : Int) (k : Nat) : expOut r (k + 1) = expOut r k ++ [iterLine r k] := by
  simp [expOut, List.range_succ]

theorem expHist_succ (k : Nat) : expHist (k + 1) = expHist k ++ [(k : Int) + 1] := by
  simp [expHist, List.range_succ]

theorem expTrace_succ (m : Nat) : expTrace (m + 1) = expTrace m ++ [expEvent m] := by
  simp [expTrace, List.range_succ]

theorem shape_initSys (limit : Int) (h : 0 ≤ limit) : Shape limit 0 0 initSys := by
  constructor <;> simp [initSys, mainEntry, ahead, wrapInt, netOf, expOut, expHist, expTrace,
    closing, h]
  decide

theorem ahead_loop : ahead Pc.loop = 0 := rfl

theorem ahead_inSend : ahead Pc.inSend = 1 := rfl

theorem ahead_exited (c : Int) : ahead (Pc.exited c) = 0 := rfl

theorem closing_loop (r c : Int) : closing r c Pc.loop = [] := rfl

theorem closing_inSend (r c : Int) : closing r c Pc.inSend = [] := rfl

theorem closing_exited (r c d : Int) : closing r c (Pc.exited d) = [Line.finished r c] := rfl

theorem expEvent_even (i : Nat) :
    expEvent (2 * i) = Event.send ((i : Int) % 2) (((i : Int) + 1) % 2) ((i : Int) + 1) := by
  have h1 : 2 * i % 2 = 0 := by omega
  have h2 : 2 * i / 2 = i := by omega
  simp [expEvent, h1, h2]

theorem expEvent_odd (i : Nat) :
    expEvent (2 * i + 1)
      = Event.recv (((i : Int) + 1) % 2) ((i : Int) % 2) ((i : Int) + 1) := by
  have h1 : (2 * i + 1) % 2 = 1 := by omega
  have h2 : (2 * i + 1) / 2 = i := by omega
  simp [expEvent, h1, h2]

theorem trace_post (tr : List Event) (m i n : Nat) (a b v : Int)
    (htr : tr = expTrace m) (hm : m = 2 * i) (hn : n = m + 1)
    (ha : a = (i : Int) % 2) (hb : b = ((i : Int) + 1) % 2) (hv : v = (i : Int) + 1) :
    tr ++ [Event.send a b v] = expTrace n := by
  subst htr hn ha hb hv
  subst hm
  rw [expTrace_succ (2 * i), expEvent_even]

theorem trace_take (tr : List Event) (m i n : Nat) (a b v : Int)
    (htr : tr = expTrace m) (hm : m = 2 * i + 1) (hn : n = m + 1)
    (ha : a = ((i : Int) + 1) % 2) (hb : b = (i : Int) % 2) (hv : v = (i : Int) + 1) :
    tr ++ [Event.recv a b v] = expTrace n := by
  subst htr hn ha hb hv
  subst hm
  rw [expTrace_succ (2 * i + 1), expEvent_odd]

theorem takeFrom_one_zero (a b : Nat) :
    takeFrom 1 0 (netOf a b) = if b = a + 1 then some ((b : Int), []) else none := by
  unfold netOf
  split_ifs <;> simp [takeFrom]
  omega

theorem takeFrom_zero_one (a b : Nat) :
    takeFrom 0 1 (netOf a b) = if a = b + 1 then some ((a : Int), []) else none := by
  unfold netOf
  split_ifs <;> simp [takeFrom]

theorem pending_zero_one (a b : Nat) : pending 0 1 (netOf a b) = decide (a = b + 1) := by
  unfold netOf pending
  split_ifs <;> simp <;> omega

theorem pending_one_zero (a b : Nat) : pending 1 0 (netOf a b) = decide (b = a + 1) := by
  unfold netOf pending
  split_ifs <;> simp <;> omega

theorem netOf_self (a : Nat) : netOf a a = [] := by
  simp [netOf]

theorem netOf_lead0 (a : Nat) : netOf (a + 1) a = [Msg.mk 0 1 ((a : Int) + 1)] := by
  simp [netOf]

theorem netOf_lead1 (a : Nat) : netOf a (a + 1) = [Msg.mk 1 0 ((a : Int) + 1)] := by
  unfold netOf
  rw [if_neg (by omega), if_pos rfl]
  push_cast
  rfl

theorem iterLine_sent (r : Int) (i : Nat) (h : r = (i : Int) % 2) :
    iterLine r i = Line.sent r ((i : Int) + 1) ((r + 1) % 2) := by
  simp [iterLine, h]

theorem iterLine_received (r : Int) (i : Nat) (h : ¬ r = (i : Int) % 2) :
    iterLine r i = Line.received r ((i : Int) + 1) ((r + 1) % 2) := by
  simp [iterLine, h]

theorem shape_step_r0 (limit : Int) (sync : Bool) (k0 k1 : Nat) (s t : Sys)
    (hmax : limit ≤ INT_MAX) (hs : Shape limit k0 k1 s)
    (hstep : sysStep limit sync s Who.r0 = some t) :
    ∃ j0 j1, Shape limit j0 j1 t := by
  have hr := hs.rank0
  have hp := hs.partner0
  have hc := hs.cnt0
  have hl := hs.le0
  have hn := hs.net
  have hn0 := hs.near0
  have hn1 := hs.near1
  have hd0 := hs.lead0
  have hd1 := hs.lead1
  have htr := hs.trace
  unfold INT_MAX at hmax
  rcases hs.pc0 with h | h | ⟨h, hk⟩
  · -- at the loop test
    simp only [h, ahead_loop, Nat.add_zero] at hc hl hn hn0 hn1 hd0 hd1 htr
    have ht : s.p0.ping_pong_count.tmod 2 = (k0 : Int) % 2 := by
      rw [hc]; exact Int.tmod_eq_emod (by omega) (by norm_num)
    by_cases hlt : s.p0.ping_pong_count < limit
    · by_cases hev : (k0 : Int) % 2 = 0
      · -- send branch: increment and post
        have hw : wrapInt (s.p0.ping_pong_count + 1) = (k0 : Int) + 1 := by
          rw [hc]; apply wrapInt_small <;> omega
        rw [hev] at ht
        simp only [sysStep, procStep, h, hlt, hr, hp, ht, hw, if_true] at hstep
        simp only [Option.some.injEq] at hstep
        subst hstep
        refine ⟨k0, k1, ?_⟩
        have hk1 : k1 + ahead s.p1.pc = k0 := by omega
        constructor <;>
          simp only [ahead_inSend, hs.size0, hs.size1, hs.rank0, hs.rank1, hs.partner0,
            hs.partner1, hs.err0, hs.err1, hs.cnt1, hs.out0, hs.out1, hs.hist0, hs.hist1,
            closing_inSend, closing_loop, h, hk1, hn, netOf_self, netOf_lead0,
            List.nil_append]
        all_goals first
          | rfl
          | exact hs.le1
          | exact hs.pc1
          | exact hs.snd1
          | exact trace_post _ _ k0 _ _ _ _ htr (by omega) (by omega) (by omega) (by omega) rfl
          | omega
          | simp
      · -- receive branch
        have hne : ¬ ((0 : Int) = s.p0.ping_pong_count.tmod 2) := by rw [ht]; omega
        simp only [sysStep, procStep, h, hlt, hr, hp, hne, if_true, if_false, hn,
          takeFrom_one_zero] at hstep
        by_cases hk1 : k1 + ahead s.p1.pc = k0 + 1
        · simp only [hk1, if_true, Option.some.injEq] at hstep
          subst hstep
          refine ⟨k0 + 1, k1, ?_⟩
          constructor <;>
            simp only [ahead_loop, hs.size0, hs.size1, hs.rank0, hs.rank1, hs.partner0,
              hs.partner1, hs.err0, hs.err1, hs.cnt1, hs.out0, hs.out1, hs.hist0, hs.hist1,
              closing_loop, h, hk1, netOf_self, Nat.add_zero, List.append_nil,
              expOut_succ, expHist_succ, iterLine_received 0 k0 (by omega)]
          all_goals first
            | rfl
            | exact hs.le1
            | exact hs.pc1
            | exact hs.snd1
            | exact trace_take _ _ k0 _ _ _ _ htr (by omega) (by omega) (by omega) (by omega)
                (by push_cast; ring)
            | omega
            | simp
        · simp [hk1] at hstep
    · -- leave the loop
      simp only [sysStep, procStep, h, hlt, hr, if_false, Option.some.injEq] at hstep
      subst hstep
      refine ⟨k0, k1, ?_⟩
      have hkl : (k0 : Int) = limit := by omega
      constructor <;>
        simp only [ahead_exited, hs.size0, hs.size1, hs.rank0, hs.rank1, hs.partner0,
          hs.partner1, hs.err0, hs.err1, hs.cnt1, hs.out0, hs.out1, hs.hist0, hs.hist1,
          closing_loop, closing_exited, h, hn, hc, hkl, Nat.add_zero, List.append_nil]
      all_goals first
        | rfl
        | exact hs.le1
        | exact hs.pc1
        | exact hs.snd1
        | exact htr
        | omega
        | simp
  · -- inside MPI_Send
    have hsn := hs.snd0 h
    simp only [h, ahead_inSend] at hc hl hn hn0 hn1 hd0 hd1 htr
    by_cases hb : sync = true ∧ pending 0 1 s.net = true
    · simp [sysStep, procStep, h, hr, hp, hb] at hstep
    · simp only [sysStep, procStep, h, hb, hr, hp, hc, if_false, Option.some.injEq] at hstep
      subst hstep
      refine ⟨k0 + 1, k1, ?_⟩
      constructor <;>
        simp only [ahead_loop, hs.size0, hs.size1, hs.rank0, hs.rank1, hs.partner0,
          hs.partner1, hs.err0, hs.err1, hs.cnt1, hs.out0, hs.out1, hs.hist0, hs.hist1,
          closing_loop, closing_inSend, h, hn, Nat.add_zero, List.append_nil,
          expOut_succ, expHist_succ, iterLine_sent 0 k0 (by omega)]
      all_goals first
        | rfl
        | exact hs.le1
        | exact hs.pc1
        | exact hs.snd1
        | exact htr
        | omega
        | simp
  · -- returned
    simp [sysStep, procStep, h] at hstep

theorem shape_step_r1 (limit : Int) (sync : Bool) (k0 k1 : Nat) (s t : Sys)
    (hmax : limit ≤ INT_MAX) (hs : Shape limit k0 k1 s)
    (hstep : sysStep limit sync s Who.r1 = some t) :
    ∃ j0 j1, Shape limit j0 j1 t := by
  have hr := hs.rank1
  have hp := hs.partner1
  have hc := hs.cnt1
  have hl := hs.le1
  have hn := hs.net
  have hn1 := hs.near1
  have hn0 := hs.near0
  have hd1 := hs.lead1
  have hd0 := hs.lead0
  have htr := hs.trace
  unfold INT_MAX at hmax
  rcases hs.pc1 with h | h | ⟨h, hk⟩
  · -- at the loop test
    simp only [h, ahead_loop, Nat.add_zero] at hc hl hn hn1 hn0 hd1 hd0 htr
    have ht : s.p1.ping_pong_count.tmod 2 = (k1 : Int) % 2 := by
      rw [hc]; exact Int.tmod_eq_emod (by omega) (by norm_num)
    by_cases hlt : s.p1.ping_pong_count < limit
    · by_cases hev : (k1 : Int) % 2 = 1
      · -- send branch: increment and post
        have hw : wrapInt (s.p1.ping_pong_count + 1) = (k1 : Int) + 1 := by
          rw [hc]; apply wrapInt_small <;> omega
        rw [hev] at ht
        simp only [sysStep, procStep, h, hlt, hr, hp, ht, hw, if_true] at hstep
        simp only [Option.some.injEq] at hstep
        subst hstep
        refine ⟨k0, k1, ?_⟩
        have hk0 : k0 + ahead s.p0.pc = k1 := by omega
        constructor <;>
          simp only [ahead_inSend, hs.size1, hs.size0, hs.rank1, hs.rank0, hs.partner1,
            hs.partner0, hs.err1, hs.err0, hs.cnt0, hs.out1, hs.out0, hs.hist1, hs.hist0,
            closing_inSend, closing_loop, h, hk0, hn, netOf_self, netOf_lead1,
            List.nil_append]
        all_goals first
          | rfl
          | exact hs.le0
          | exact hs.pc0
          | exact hs.snd0
          | exact trace_post _ _ k1 _ _ _ _ htr (by omega) (by omega) (by omega) (by omega) rfl
          | omega
          | simp
      · -- receive branch
        have hne : ¬ ((1 : Int) = s.p1.ping_pong_count.tmod 2) := by rw [ht]; omega
        simp only [sysStep, procStep, h, hlt, hr, hp, hne, if_true, if_false, hn,
          takeFrom_zero_one] at hstep
        by_cases hk0 : k0 + ahead s.p0.pc = k1 + 1
        · simp only [hk0, if_true, Option.some.injEq] at hstep
          subst hstep
          refine ⟨k0, k1 + 1, ?_⟩
          constructor <;>
            simp only [ahead_loop, hs.size1, hs.size0, hs.rank1, hs.rank0, hs.partner1,
              hs.partner0, hs.err1, hs.err0, hs.cnt0, hs.out1, hs.out0, hs.hist1, hs.hist0,
              closing_loop, h, hk0, netOf_self, Nat.add_zero, List.append_nil,
              expOut_succ, expHist_succ, iterLine_received 1 k1 (by omega)]
          all_goals first
            | rfl
            | exact hs.le0
            | exact hs.pc0
            | exact hs.snd0
            | exact trace_take _ _ k1 _ _ _ _ htr (by omega) (by omega) (by omega) (by omega)
                (by push_cast; ring)
            | omega
            | simp
        · simp [hk0] at hstep
    · -- leave the loop
      simp only [sysStep, procStep, h, hlt, hr, if_false, Option.some.injEq] at hstep
      subst hstep
      refine ⟨k0, k1, ?_⟩
      have hkl : (k1 : Int) = limit := by omega
      constructor <;>
        simp only [ahead_exited, hs.size1, hs.size0, hs.rank1, hs.rank0, hs.partner1,
          hs.partner0, hs.err1, hs.err0, hs.cnt0, hs.out1, hs.out0, hs.hist1, hs.hist0,
          closing_loop, closing_exited, h, hn, hc, hkl, Nat.add_zero, List.append_nil]
      all_goals first
        | rfl
        | exact hs.le0
        | exact hs.pc0
        | exact hs.snd0
        | exact htr
        | omega
        | simp
  · -- inside MPI_Send
    have hsn := hs.snd1 h
    simp only [h, ahead_inSend] at hc hl hn hn1 hn0 hd1 hd0 htr
    by_cases hb : sync = true ∧ pending 1 0 s.net = true
    · simp [sysStep, procStep, h, hr, hp, hb] at hstep
    · simp only [sysStep, procStep, h, hb, hr, hp, hc, if_false, Option.some.injEq] at hstep
      subst hstep
      refine ⟨k0, k1 + 1, ?_⟩
      constructor <;>
        simp only [ahead_loop, hs.size1, hs.size0, hs.rank1, hs.rank0, hs.partner1,
          hs.partner0, hs.err1, hs.err0, hs.cnt0, hs.out1, hs.out0, hs.hist1, hs.hist0,
          closing_loop, closing_inSend, h, hn, Nat.add_zero, List.append_nil,
          expOut_succ, expHist_succ, iterLine_sent 1 k1 (by omega)]
      all_goals first
        | rfl
        | exact hs.le0
        | exact hs.pc0
        | exact hs.snd0
        | exact htr
        | omega
        | simp
  · -- returned
    simp [sysStep, procStep, h] at hstep

theorem shape_step (limit : Int) (sync : Bool) (k0 k1 : Nat) (s t : Sys) (w : Who)
    (hmax : limit ≤ INT_MAX) (hs : Shape limit k0 k1 s)
    (hstep : sysStep limit sync s w = some t) :
    ∃ j0 j1, Shape limit j0 j1 t := by
  cases w
  · exact shape_step_r0 limit sync k0 k1 s t hmax hs hstep
  · exact shape_step_r1 limit sync k0 k1 s t hmax hs hstep

theorem shape_run (limit : Int) (sync : Bool) (hmax : limit ≤ INT_MAX) (sch : List Who) :
    ∀ (s t : Sys) (k0 k1 : Nat), Shape limit k0 k1 s → runSched limit sync sch s = some t →
      ∃ j0 j1, Shape limit j0 j1 t := by
  induction sch with
  | nil =>
    intro s t k0 k1 hs h
    simp only [runSched, Option.some.injEq] at h
    subst h
    exact ⟨k0, k1, hs⟩
  | cons w ws ih =>
    intro s t k0 k1 hs h
    simp only [runSched] at h
    cases hw : sysStep limit sync s w with
    | none => simp [hw] at h
    | some u =>
      rw [hw] at h
      obtain ⟨j0, j1, hu⟩ := shape_step limit sync k0 k1 s u w hmax hs hw
      exact ih u t j0 j1 hu h

theorem shape_reachable (limit : Int) (sync : Bool) (h0 : 0 ≤ limit) (hmax : limit ≤ INT_MAX)
    (sch : List Who) (s : Sys) (h : runSched limit sync sch initSys = some s) :
    ∃ k0 k1, Shape limit k0 k1 s :=
  shape_run limit sync hmax sch initSys s 0 0 (shape_initSys limit h0) h

/-! ## Progress -/

theorem r0_moves_loop (limit : Int) (sync : Bool) (k0 k1 : Nat) (s : Sys)
    (hs : Shape limit k0 k1 s) (h : s.p0.pc = Pc.loop)
    (c : k0 % 2 = 0 ∨ k1 + ahead s.p1.pc = k0 + 1 ∨ limit ≤ (k0 : Int)) :
    ∃ t, sysStep limit sync s Who.r0 = some t := by
  have hc := hs.cnt0
  have hn := hs.net
  simp only [h, ahead_loop, Nat.add_zero] at hc hn
  have ht : ((k0 : Nat) : Int).tmod 2 = (k0 : Int) % 2 :=
    Int.tmod_eq_emod (by omega) (by norm_num)
  simp only [sysStep, procStep, h, hs.rank0, hs.partner0, hc, ht, hn, takeFrom_one_zero]
  by_cases hlt : (k0 : Int) < limit
  · by_cases hev : (k0 : Int) % 2 = 0
    · simp only [hlt, hev, if_true]
      exact ⟨_, rfl⟩
    · have hev2 : ¬ ((0 : Int) = (k0 : Int) % 2) := by omega
      have hk : k1 + ahead s.p1.pc = k0 + 1 := by omega
      simp only [hlt, hev2, hk, if_true, if_false]
      exact ⟨_, rfl⟩
  · simp only [hlt, if_false]
    exact ⟨_, rfl⟩

theorem r1_moves_loop (limit : Int) (sync : Bool) (k0 k1 : Nat) (s : Sys)
    (hs : Shape limit k0 k1 s) (h : s.p1.pc = Pc.loop)
    (c : k1 % 2 = 1 ∨ k0 + ahead s.p0.pc = k1 + 1 ∨ limit ≤ (k1 : Int)) :
    ∃ t, sysStep limit sync s Who.r1 = some t := by
  have hc := hs.cnt1
  have hn := hs.net
  simp only [h, ahead_loop, Nat.add_zero] at hc hn
  have ht : ((k1 : Nat) : Int).tmod 2 = (k1 : Int) % 2 :=
    Int.tmod_eq_emod (by omega) (by norm_num)
  simp only [sysStep, procStep, h, hs.rank1, hs.partner1, hc, ht, hn, takeFrom_zero_one]
  by_cases hlt : (k1 : Int) < limit
  · by_cases hev : (k1 : Int) % 2 = 1
    · simp only [hlt, hev, if_true]
      exact ⟨_, rfl⟩
    · have hev2 : ¬ ((1 : Int) = (k1 : Int) % 2) := by omega
      have hk : k0 + ahead s.p0.pc = k1 + 1 := by omega
      simp only [hlt, hev2, hk, if_true, if_false]
      exact ⟨_, rfl⟩
  · simp only [hlt, if_false]
    exact ⟨_, rfl⟩

theorem r0_moves_inSend (limit : Int) (sync : Bool) (k0 k1 : Nat) (s : Sys)
    (hs : Shape limit k0 k1 s) (h : s.p0.pc = Pc.inSend)
    (c : k1 + ahead s.p1.pc ≠ k0) :
    ∃ t, sysStep limit sync s Who.r0 = some t := by
  have hn := hs.net
  simp only [h, ahead_inSend] at hn
  have hp : pending 0 1 s.net = false := by
    rw [hn, pending_zero_one]
    simp only [decide_eq_false_iff_not]
    omega
  simp only [sysStep, procStep, h, hs.rank0, hs.partner0, hp]
  simp

theorem r1_moves_inSend (limit : Int) (sync : Bool) (k0 k1 : Nat) (s : Sys)
    (hs : Shape limit k0 k1 s) (h : s.p1.pc = Pc.inSend)
    (c : k0 + ahead s.p0.pc ≠ k1) :
    ∃ t, sysStep limit sync s Who.r1 = some t := by
  have hn := hs.net
  simp only [h, ahead_inSend] at hn
  have hp : pending 1 0 s.net = false := by
    rw [hn, pending_one_zero]
    simp only [decide_eq_false_iff_not]
    omega
  simp only [sysStep, procStep, h, hs.rank1, hs.partner1, hp]
  simp

theorem progress (limit : Int) (sync : Bool) (k0 k1 : Nat) (s : Sys)
    (hs : Shape limit k0 k1 s) (hne : ¬ BothExited s) :
    ∃ w t, sysStep limit sync s w = some t := by
  have f1 := hs.near0
  have f2 := hs.near1
  have f3 := hs.lead0
  have f4 := hs.lead1
  have f5 := hs.le0
  have f6 := hs.le1
  have f7 := hs.snd0
  have f8 := hs.snd1
  rcases hs.pc0 with a | a | ⟨a, ak⟩ <;> rcases hs.pc1 with b | b | ⟨b, bk⟩ <;>
    simp only [a, b, ahead_loop, ahead_inSend, ahead_exited, Nat.add_zero, true_implies]
      at f1 f2 f3 f4 f5 f6 f7 f8
  · have c : (k0 % 2 = 0 ∨ k1 = k0 + 1 ∨ limit ≤ (k0 : Int)) ∨
        (k1 % 2 = 1 ∨ k0 = k1 + 1 ∨ limit ≤ (k1 : Int)) := by omega
    rcases c with c | c
    · exact ⟨Who.r0, r0_moves_loop limit sync k0 k1 s hs a
        (by simp only [b, ahead_loop, Nat.add_zero]; exact c)⟩
    · exact ⟨Who.r1, r1_moves_loop limit sync k0 k1 s hs b
        (by simp only [a, ahead_loop, Nat.add_zero]; exact c)⟩
  · have c : (k0 % 2 = 0 ∨ k1 + 1 = k0 + 1 ∨ limit ≤ (k0 : Int)) ∨ k0 ≠ k1 := by omega
    rcases c with c | c
    · exact ⟨Who.r0, r0_moves_loop limit sync k0 k1 s hs a
        (by simp only [b, ahead_inSend]; exact c)⟩
    · exact ⟨Who.r1, r1_moves_inSend limit sync k0 k1 s hs b
        (by simp only [a, ahead_loop, Nat.add_zero]; exact c)⟩
  · exact ⟨Who.r0, r0_moves_loop limit sync k0 k1 s hs a
      (by simp only [b, ahead_exited, Nat.add_zero]; omega)⟩
  · have c : (k1 % 2 = 1 ∨ k0 + 1 = k1 + 1 ∨ limit ≤ (k1 : Int)) ∨ k1 ≠ k0 := by omega
    rcases c with c | c
    · exact ⟨Who.r1, r1_moves_loop limit sync k0 k1 s hs b
        (by simp only [a, ahead_inSend]; exact c)⟩
    · exact ⟨Who.r0, r0_moves_inSend limit sync k0 k1 s hs a
        (by simp only [b, ahead_loop, Nat.add_zero]; exact c)⟩
  · have c : k1 + 1 ≠ k0 ∨ k0 + 1 ≠ k1 := by omega
    rcases c with c | c
    · exact ⟨Who.r0, r0_moves_inSend limit sync k0 k1 s hs a
        (by simp only [b, ahead_inSend]; exact c)⟩
    · exact ⟨Who.r1, r1_moves_inSend limit sync k0 k1 s hs b
        (by simp only [a, ahead_inSend]; exact c)⟩
  · exact ⟨Who.r0, r0_moves_inSend limit sync k0 k1 s hs a
      (by simp only [b, ahead_exited, Nat.add_zero]; omega)⟩
  · exact ⟨Who.r1, r1_moves_loop limit sync k0 k1 s hs b
      (by simp only [a, ahead_exited, Nat.add_zero]; omega)⟩
  · exact ⟨Who.r1, r1_moves_inSend limit sync k0 k1 s hs b
      (by simp only [a, ahead_exited, Nat.add_zero]; omega)⟩
  · exact absurd ⟨⟨0, a⟩, ⟨0, b⟩⟩ hne

/-! ## Termination -/

theorem procStep_measure (limit : Int) (sync : Bool) (p q : Proc) (net net2 : List Msg)
    (ev : List Event) (h : procStep limit sync p net = some (q, net2, ev)) :
    p.out.length < q.out.length + ev.length := by
  unfold procStep at h
  split at h
  · simp at h
  · split at h
    · simp at h
    · simp only [Option.some.injEq, Prod.mk.injEq] at h
      obtain ⟨rfl, rfl, rfl⟩ := h
      simp
  · split at h
    · split at h
      · simp only [Option.some.injEq, Prod.mk.injEq] at h
        obtain ⟨rfl, rfl, rfl⟩ := h
        simp
      · split at h
        · simp at h
        · simp only [Option.some.injEq, Prod.mk.injEq] at h
          obtain ⟨rfl, rfl, rfl⟩ := h
          simp only [List.length_append, List.length_singleton]
          omega
    · simp only [Option.some.injEq, Prod.mk.injEq] at h
      obtain ⟨rfl, rfl, rfl⟩ := h
      simp

theorem step_measure (limit : Int) (sync : Bool) (s t : Sys) (w : Who)
    (h : sysStep limit sync s w = some t) : progressMeasure s < progressMeasure t := by
  cases w
  · simp only [sysStep] at h
    cases hp : procStep limit sync s.p0 s.net with
    | none => simp [hp] at h
    | some r =>
      obtain ⟨q, net2, ev⟩ := r
      rw [hp] at h
      simp only [Option.some.injEq] at h
      subst h
      have := procStep_measure limit sync s.p0 q s.net net2 ev hp
      simp only [progressMeasure, List.length_append]
      omega
  · simp only [sysStep] at h
    cases hp : procStep limit sync s.p1 s.net with
    | none => simp [hp] at h
    | some r =>
      obtain ⟨q, net2, ev⟩ := r
      rw [hp] at h
      simp only [Option.some.injEq] at h
      subst h
      have := procStep_measure limit sync s.p1 q s.net net2 ev hp
      simp only [progressMeasure, List.length_append]
      omega

theorem run_measure (limit : Int) (sync : Bool) (sch : List Who) :
    ∀ (s t : Sys), runSched limit sync sch s = some t →
      progressMeasure s + sch.length ≤ progressMeasure t := by
  induction sch with
  | nil =>
    intro s t h
    simp only [runSched, Option.some.injEq] at h
    subst h
    simp
  | cons w ws ih =>
    intro s t h
    simp only [runSched] at h
    cases hw : sysStep limit sync s w with
    | none => simp [hw] at h
    | some u =>
      rw [hw] at h
      have h1 := step_measure limit sync s u w hw
      have h2 := ih u t h
      simp only [List.length_cons]
      omega

theorem expTrace_length (m : Nat) : (expTrace m).length = m := by
  simp [expTrace]

theorem expOut_length (r : Int) (k : Nat) : (expOut r k).length = k := by
  simp [expOut]

theorem expHist_length (k : Nat) : (expHist k).length = k := by
  unfold expHist
  rw [List.length_map, List.length_range]

theorem closing_length (r c : Int) (pc : Pc) : (closing r c pc).length ≤ 1 := by
  cases pc <;> simp [closing]

theorem shape_measure (limit : Int) (k0 k1 : Nat) (s : Sys) (hs : Shape limit k0 k1 s) :
    progressMeasure s ≤ 4 * limit.toNat + 2 := by
  have f5 := hs.le0
  have f6 := hs.le1
  have c0 := closing_length 0 limit s.p0.pc
  have c1 := closing_length 1 limit s.p1.pc
  simp only [progressMeasure, hs.trace, hs.out0, hs.out1, expTrace_length, expOut_length,
    List.length_append]
  omega

theorem stuck_exited (limit : Int) (sync : Bool) (k0 k1 : Nat) (s : Sys)
    (hs : Shape limit k0 k1 s) (hst : Stuck limit sync s) : BothExited s := by
  by_contra hne
  obtain ⟨w, t, ht⟩ := progress limit sync k0 k1 s hs hne
  rw [hst w] at ht
  exact Option.noConfusion ht

theorem exited_stuck (limit : Int) (sync : Bool) (s : Sys) (h : BothExited s) :
    Stuck limit sync s := by
  obtain ⟨⟨c0, h0⟩, ⟨c1, h1⟩⟩ := h
  intro w
  cases w <;> simp [sysStep, procStep, h0, h1]

theorem completion (limit : Int) (sync : Bool) (hmax : limit ≤ INT_MAX) :
    ∀ (m : Nat) (s : Sys) (k0 k1 : Nat), Shape limit k0 k1 s →
      4 * limit.toNat + 2 - progressMeasure s ≤ m →
      ∃ sch t, runSched limit sync sch s = some t ∧ BothExited t := by
  intro m
  induction m with
  | zero =>
    intro s k0 k1 hs hm
    by_cases hb : BothExited s
    · exact ⟨[], s, rfl, hb⟩
    · obtain ⟨w, t, ht⟩ := progress limit sync k0 k1 s hs hb
      obtain ⟨j0, j1, hsh⟩ := shape_step limit sync k0 k1 s t w hmax hs ht
      have h1 := step_measure limit sync s t w ht
      have h2 := shape_measure limit j0 j1 t hsh
      omega
  | succ m ih =>
    intro s k0 k1 hs hm
    by_cases hb : BothExited s
    · exact ⟨[], s, rfl, hb⟩
    · obtain ⟨w, t, ht⟩ := progress limit sync k0 k1 s hs hb
      obtain ⟨j0, j1, hsh⟩ := shape_step limit sync k0 k1 s t w hmax hs ht
      have h1 := step_measure limit sync s t w ht
      have h2 := shape_measure limit j0 j1 t hsh
      obtain ⟨sch, u, hu, hbu⟩ := ih t j0 j1 hsh (by omega)
      refine ⟨w :: sch, u, ?_, hbu⟩
      simp only [runSched, ht]
      exact hu

/-- What the invariant says once both processes have returned. -/
theorem shape_exited (limit : Int) (k0 k1 : Nat) (s : Sys) (hs : Shape limit k0 k1 s)
    (hb : BothExited s) :
    (k0 : Int) = limit ∧ (k1 : Int) = limit ∧
    s.p0.pc = Pc.exited 0 ∧ s.p1.pc = Pc.exited 0 ∧
    s.p0.ping_pong_count = limit ∧ s.p1.ping_pong_count = limit ∧
    s.net = [] ∧ s.trace = expTrace (k0 + k1) ∧
    s.p0.out = expOut 0 k0 ++ [Line.finished 0 limit] ∧
    s.p1.out = expOut 1 k1 ++ [Line.finished 1 limit] ∧
    s.p0.hist = expHist k0 ∧ s.p1.hist = expHist k1 := by
  obtain ⟨⟨c0, h0⟩, ⟨c1, h1⟩⟩ := hb
  have a : s.p0.pc = Pc.exited 0 ∧ (k0 : Int) = limit := by
    rcases hs.pc0 with a | a | a
    · rw [a] at h0; exact Pc.noConfusion h0
    · rw [a] at h0; exact Pc.noConfusion h0
    · exact a
  have b : s.p1.pc = Pc.exited 0 ∧ (k1 : Int) = limit := by
    rcases hs.pc1 with b | b | b
    · rw [b] at h1; exact Pc.noConfusion h1
    · rw [b] at h1; exact Pc.noConfusion h1
    · exact b
  have e0 := hs.cnt0
  have e1 := hs.cnt1
  have e2 := hs.net
  have e3 := hs.trace
  have e4 := hs.out0
  have e5 := hs.out1
  simp only [a.1, b.1, ahead_exited, Nat.add_zero, closing_exited] at e0 e1 e2 e3 e4 e5
  have hk : k0 = k1 := by omega
  refine ⟨a.2, b.2, a.1, b.1, ?_, ?_, ?_, e3, e4, e5, hs.hist0, hs.hist1⟩
  · rw [e0]; exact a.2
  · rw [e1]; exact b.2
  · rw [e2, hk, netOf_self]

/-! ## Facts about the histories and the end of a run -/

theorem ten_shape (sync : Bool) (sch : List Who) (s : Sys)
    (h : runSched PING_PONG_LIMIT sync sch initSys = some s) :
    ∃ k0 k1, Shape PING_PONG_LIMIT k0 k1 s :=
  shape_reachable PING_PONG_LIMIT sync (by decide) (by decide) sch s h

theorem ten_complete (sync : Bool) (sch : List Who) (s : Sys)
    (h : runSched PING_PONG_LIMIT sync sch initSys = some s)
    (hst : Stuck PING_PONG_LIMIT sync s) : s = finalSys := by
  obtain ⟨k0, k1, hs⟩ := ten_shape sync sch s h
  have hb := stuck_exited PING_PONG_LIMIT sync k0 k1 s hs hst
  obtain ⟨e1, e2, e3, e4, e5, e6, e7, e8, e9, e10, e11, e12⟩ :=
    shape_exited PING_PONG_LIMIT k0 k1 s hs hb
  have h0 : k0 = 10 := by unfold PING_PONG_LIMIT at e1; omega
  have h1 : k1 = 10 := by unfold PING_PONG_LIMIT at e2; omega
  subst h0 h1
  have g1 := hs.size0
  have g2 := hs.size1
  have g3 := hs.rank0
  have g4 := hs.rank1
  have g5 := hs.partner0
  have g6 := hs.partner1
  have g7 := hs.err0
  have g8 := hs.err1
  rcases s with ⟨⟨a1, a2, a3, a4, a5, a6, a7, a8⟩, ⟨b1, b2, b3, b4, b5, b6, b7, b8⟩, net, tr⟩
  dsimp only at e3 e4 e5 e6 e7 e8 e9 e10 e11 e12 g1 g2 g3 g4 g5 g6 g7 g8
  subst e3 e4 e5 e6 e7 e8 e9 e10 e11 e12 g1 g2 g3 g4 g5 g6 g7 g8
  decide

theorem ten_extend (sync : Bool) (sch : List Who) (s : Sys)
    (h : runSched PING_PONG_LIMIT sync sch initSys = some s) :
    ∃ more t, runSched PING_PONG_LIMIT sync more s = some t ∧ Stuck PING_PONG_LIMIT sync t := by
  obtain ⟨k0, k1, hs⟩ := ten_shape sync sch s h
  obtain ⟨more, t, ht, hb⟩ :=
    completion PING_PONG_LIMIT sync (by decide) _ s k0 k1 hs (Nat.le_refl _)
  exact ⟨more, t, ht, exited_stuck PING_PONG_LIMIT sync t hb⟩

theorem runSched_append (limit : Int) (sync : Bool) (a b : List Who) :
    ∀ (s t u : Sys), runSched limit sync a s = some t → runSched limit sync b t = some u →
      runSched limit sync (a ++ b) s = some u := by
  induction a with
  | nil =>
    intro s t u h1 h2
    simp only [runSched, Option.some.injEq] at h1
    subst h1
    simpa using h2
  | cons w ws ih =>
    intro s t u h1 h2
    simp only [runSched, List.cons_append] at h1 ⊢
    cases hw : sysStep limit sync s w with
    | none => simp [hw] at h1
    | some v =>
      rw [hw] at h1
      simp only
      exact ih v t u h1 h2

theorem finalSys_stuck (sync : Bool) : Stuck PING_PONG_LIMIT sync finalSys := by
  intro w
  cases w <;> rfl

theorem ten_extend_final (sync : Bool) (sch : List Who) (s : Sys)
    (h : runSched PING_PONG_LIMIT sync sch initSys = some s) :
    ∃ more, runSched PING_PONG_LIMIT sync more s = some finalSys := by
  obtain ⟨more, t, ht, hst⟩ := ten_extend sync sch s h
  have hrun := runSched_append PING_PONG_LIMIT sync sch more initSys s t h ht
  have e := ten_complete sync (sch ++ more) t hrun hst
  rw [e] at ht
  exact ⟨more, ht⟩

theorem ten_bounded (sync : Bool) (sch : List Who) (s : Sys)
    (h : runSched PING_PONG_LIMIT sync sch initSys = some s) : sch.length ≤ 42 := by
  obtain ⟨k0, k1, hs⟩ := ten_shape sync sch s h
  have h1 := run_measure PING_PONG_LIMIT sync sch initSys s h
  have h2 := shape_measure PING_PONG_LIMIT k0 k1 s hs
  have h3 : PING_PONG_LIMIT.toNat = 10 := by decide
  omega

theorem allRecv_append (a b : List Event) : allRecv (a ++ b) = allRecv a ++ allRecv b := by
  induction a with
  | nil => rfl
  | cons e es ih =>
    cases e with
    | send x y v => simpa [allRecv] using ih
    | recv x y v => simpa [allRecv] using ih

theorem allRecv_expTrace (m : Nat) : allRecv (expTrace m) = expHist (m / 2) := by
  induction m with
  | zero => rfl
  | succ m ih =>
    rw [expTrace_succ, allRecv_append, ih]
    obtain ⟨i, hi | hi⟩ : ∃ i, m = 2 * i ∨ m = 2 * i + 1 := ⟨m / 2, by omega⟩
    · subst hi
      have e : (2 * i + 1) / 2 = 2 * i / 2 := by omega
      rw [expEvent_even, e]
      simp [allRecv]
    · subst hi
      have e1 : (2 * i + 1 + 1) / 2 = i + 1 := by omega
      have e2 : (2 * i + 1) / 2 = i := by omega
      rw [expEvent_odd, e1, e2, expHist_succ]
      simp [allRecv]

theorem expHist_get (k i : Nat) (v : Int) (h : (expHist k)[i]? = some v) :
    v = (i : Int) + 1 ∧ i < k := by
  unfold expHist at h
  rw [List.getElem?_map] at h
  by_cases hik : i < k
  · rw [List.getElem?_range hik] at h
    simp only [Option.map_some', Option.some.injEq] at h
    exact ⟨h.symm, hik⟩
  · rw [List.getElem?_eq_none (by simpa using hik)] at h
    simp at h

theorem expHist_get_lt (k i : Nat) (h : i < k) : (expHist k)[i]? = some ((i : Int) + 1) := by
  unfold expHist
  rw [List.getElem?_map, List.getElem?_range h]
  rfl

theorem expTrace_get (m j : Nat) (e : Event) (h : (expTrace m)[j]? = some e) :
    e = expEvent j ∧ j < m := by
  unfold expTrace at h
  rw [List.getElem?_map] at h
  by_cases hjm : j < m
  · rw [List.getElem?_range hjm] at h
    simp only [Option.map_some', Option.some.injEq] at h
    exact ⟨h.symm, hjm⟩
  · rw [List.getElem?_eq_none (by simpa using hjm)] at h
    simp at h

theorem expTrace_get_lt (m j : Nat) (h : j < m) : (expTrace m)[j]? = some (expEvent j) := by
  unfold expTrace
  rw [List.getElem?_map, List.getElem?_range h]
  rfl

theorem expOut_get (r : Int) (k i : Nat) (l : Line) (h : (expOut r k)[i]? = some l) :
    l = iterLine r i ∧ i < k := by
  unfold expOut at h
  rw [List.getElem?_map] at h
  by_cases hik : i < k
  · rw [List.getElem?_range hik] at h
    simp only [Option.map_some', Option.some.injEq] at h
    exact ⟨h.symm, hik⟩
  · rw [List.getElem?_eq_none (by simpa using hik)] at h
    simp at h

theorem netOf_length (a b : Nat) : (netOf a b).length ≤ 1 := by
  unfold netOf
  split_ifs <;> simp

theorem iterLine_zero (i : Nat) :
    iterLine 0 i =
      if i % 2 = 0 then Line.sent 0 ((i : Int) + 1) 1 else Line.received 0 ((i : Int) + 1) 1 := by
  by_cases hi : i % 2 = 0
  · rw [if_pos hi, iterLine_sent 0 i (by omega)]
    rfl
  · rw [if_neg hi, iterLine_received 0 i (by omega)]
    rfl

theorem iterLine_one (i : Nat) :
    iterLine 1 i =
      if i % 2 = 1 then Line.sent 1 ((i : Int) + 1) 0 else Line.received 1 ((i : Int) + 1) 0 := by
  by_cases hi : i % 2 = 1
  · rw [if_pos hi, iterLine_sent 1 i (by omega)]
    rfl
  · rw [if_neg hi, iterLine_received 1 i (by omega)]
    rfl

theorem out0_get (limit : Int) (k0 k1 : Nat) (s : Sys) (hs : Shape limit k0 k1 s)
    (i : Nat) (hi : (i : Int) < limit) (l : Line) (h : s.p0.out[i]? = some l) :
    l = iterLine 0 i := by
  rw [hs.out0, List.getElem?_append, expOut_length] at h
  by_cases hik : i < k0
  · rw [if_pos hik] at h
    exact (expOut_get 0 k0 i l h).1
  · rw [if_neg hik] at h
    rcases hs.pc0 with a | a | ⟨a, ak⟩
    · rw [a, closing_loop] at h; simp at h
    · rw [a, closing_inSend] at h; simp at h
    · omega

theorem out1_get (limit : Int) (k0 k1 : Nat) (s : Sys) (hs : Shape limit k0 k1 s)
    (i : Nat) (hi : (i : Int) < limit) (l : Line) (h : s.p1.out[i]? = some l) :
    l = iterLine 1 i := by
  rw [hs.out1, List.getElem?_append, expOut_length] at h
  by_cases hik : i < k1
  · rw [if_pos hik] at h
    exact (expOut_get 1 k1 i l h).1
  · rw [if_neg hik] at h
    rcases hs.pc1 with a | a | ⟨a, ak⟩
    · rw [a, closing_loop] at h; simp at h
    · rw [a, closing_inSend] at h; simp at h
    · omega

theorem expEvent_recv_odd (j : Nat) (a b v : Int) (h : expEvent j = Event.recv a b v) :
    j % 2 = 1 := by
  unfold expEvent at h
  split at h
  · exact Event.noConfusion h
  · omega

theorem roundtrip_check :
    ∀ m, m ≤ 20 →
      recvVals 1 (expTrace m) = (sentVals 0 (expTrace m)).take (recvVals 1 (expTrace m)).length ∧
      recvVals 0 (expTrace m) = (sentVals 1 (expTrace m)).take (recvVals 0 (expTrace m)).length := by
  decide

theorem numSends_expTrace (i : Nat) :
    numSends (expTrace (2 * i)) = i ∧ numRecvs (expTrace (2 * i)) = i := by
  induction i with
  | zero => exact ⟨rfl, rfl⟩
  | succ i ih =>
    have e : 2 * (i + 1) = 2 * i + 1 + 1 := by ring
    rw [e, expTrace_succ (2 * i + 1), expTrace_succ (2 * i), expEvent_odd, expEvent_even]
    unfold numSends numRecvs at ih ⊢
    simp only [List.countP_append, ih.1, ih.2]
    simp [isSend, isRecv]

theorem wrapInt_le (x : Int) : wrapInt x ≤ INT_MAX := by
  unfold wrapInt INT_MAX
  omega

theorem takeFrom_bounded (a b : Int) (net : List Msg) :
    ∀ (v : Int) (rest : List Msg), (∀ m ∈ net, m.val ≤ INT_MAX) →
      takeFrom a b net = some (v, rest) → v ≤ INT_MAX ∧ ∀ m ∈ rest, m.val ≤ INT_MAX := by
  induction net with
  | nil =>
    intro v rest _ h
    simp [takeFrom] at h
  | cons m ms ih =>
    intro v rest hn h
    unfold takeFrom at h
    split at h
    · simp only [Option.some.injEq, Prod.mk.injEq] at h
      obtain ⟨rfl, rfl⟩ := h
      exact ⟨hn m (List.mem_cons_self _ _), fun x hx => hn x (List.mem_cons_of_mem _ hx)⟩
    · cases hr : takeFrom a b ms with
      | none => simp [hr] at h
      | some r =>
        obtain ⟨v2, rest2⟩ := r
        rw [hr] at h
        simp only [Option.map_some', Option.some.injEq, Prod.mk.injEq] at h
        obtain ⟨rfl, rfl⟩ := h
        obtain ⟨g1, g2⟩ := ih v2 rest2 (fun x hx => hn x (List.mem_cons_of_mem _ hx)) hr
        refine ⟨g1, ?_⟩
        intro x hx
        rcases List.mem_cons.mp hx with hx | hx
        · rw [hx]; exact hn m (List.mem_cons_self _ _)
        · exact g2 x hx

theorem procStep_bounded (limit : Int) (sync : Bool) (p q : Proc) (net net2 : List Msg)
    (ev : List Event) (hp : p.ping_pong_count ≤ INT_MAX)
    (hn : ∀ m ∈ net, m.val ≤ INT_MAX)
    (h : procStep limit sync p net = some (q, net2, ev)) :
    q.ping_pong_count ≤ INT_MAX ∧ ∀ m ∈ net2, m.val ≤ INT_MAX := by
  unfold procStep at h
  split at h
  · simp at h
  · split at h
    · simp at h
    · simp only [Option.some.injEq, Prod.mk.injEq] at h
      obtain ⟨rfl, rfl, rfl⟩ := h
      exact ⟨hp, hn⟩
  · split at h
    · split at h
      · simp only [Option.some.injEq, Prod.mk.injEq] at h
        obtain ⟨rfl, rfl, rfl⟩ := h
        refine ⟨wrapInt_le _, ?_⟩
        intro m hm
        rcases List.mem_append.mp hm with hm | hm
        · exact hn m hm
        · simp only [List.mem_singleton] at hm
          rw [hm]
          exact wrapInt_le _
      · split at h
        · simp at h
        · rename_i v rest htake
          simp only [Option.some.injEq, Prod.mk.injEq] at h
          obtain ⟨rfl, rfl, rfl⟩ := h
          exact takeFrom_bounded _ _ net v rest hn htake
    · simp only [Option.some.injEq, Prod.mk.injEq] at h
      obtain ⟨rfl, rfl, rfl⟩ := h
      exact ⟨hp, hn⟩

theorem run_bounded (limit : Int) (sync : Bool) (sch : List Who) :
    ∀ (s t : Sys), s.p0.ping_pong_count ≤ INT_MAX → s.p1.ping_pong_count ≤ INT_MAX →
      (∀ m ∈ s.net, m.val ≤ INT_MAX) → runSched limit sync sch s = some t →
      t.p0.ping_pong_count ≤ INT_MAX ∧ t.p1.ping_pong_count ≤ INT_MAX := by
  induction sch with
  | nil =>
    intro s t h0 h1 _ h
    simp only [runSched, Option.some.injEq] at h
    subst h
    exact ⟨h0, h1⟩
  | cons w ws ih =>
    intro s t h0 h1 hn h
    simp only [runSched] at h
    cases hw : sysStep limit sync s w with
    | none => simp [hw] at h
    | some u =>
      rw [hw] at h
      cases w with
      | r0 =>
        simp only [sysStep] at hw
        cases hp : procStep limit sync s.p0 s.net with
        | none => simp [hp] at hw
        | some r =>
          obtain ⟨q, net2, ev⟩ := r
          rw [hp] at hw
          simp only [Option.some.injEq] at hw
          subst hw
          obtain ⟨g1, g2⟩ := procStep_bounded limit sync s.p0 q s.net net2 ev h0 hn hp
          exact ih { s with p0 := q, net := net2, trace := s.trace ++ ev } t g1 h1 g2 h
      | r1 =>
        simp only [sysStep] at hw
        cases hp : procStep limit sync s.p1 s.net with
        | none => simp [hp] at hw
        | some r =>
          obtain ⟨q, net2, ev⟩ := r
          rw [hp] at hw
          simp only [Option.some.injEq] at hw
          subst hw
          obtain ⟨g1, g2⟩ := procStep_bounded limit sync s.p1 q s.net net2 ev h1 hn hp
          exact ih { s with p1 := q, net := net2, trace := s.trace ++ ev } t h0 g1 g2 h

theorem finalSys_rounds :
    ∀ i : Nat, i < 10 →
      finalSys.trace[2 * i]? =
        some (Event.send ((i : Int) % 2) (((i : Int) + 1) % 2) ((i : Int) + 1)) ∧
      finalSys.trace[2 * i + 1]? =
        some (Event.recv (((i : Int) + 1) % 2) ((i : Int) % 2) ((i : Int) + 1)) ∧
      finalSys.p0.out[i]? =
        some (if i % 2 = 0 then Line.sent 0 ((i : Int) + 1) 1
              else Line.received 0 ((i : Int) + 1) 1) ∧
      finalSys.p1.out[i]? =
        some (if i % 2 = 1 then Line.sent 1 ((i : Int) + 1) 0
              else Line.received 1 ((i : Int) + 1) 0) := by
  decide

/-! ## The properties of the specification -/

/-- C1. Two processes, round limit 10: every run is finite (at most 42 steps), every
run can be continued until no process can move, and a run that cannot be continued has
ended with `ping_pong_count = PING_PONG_LIMIT` in both processes, both of which have
returned exit code 0. -/
theorem c1_final_count_and_exit (sync : Bool) (sch : List Who) (s : Sys)
    (h : runSched PING_PONG_LIMIT sync sch initSys = some s) :
    sch.length ≤ 42 ∧
    (∃ more t, runSched PING_PONG_LIMIT sync more s = some t ∧
      Stuck PING_PONG_LIMIT sync t) ∧
    (Stuck PING_PONG_LIMIT sync s →
      s.p0.ping_pong_count = PING_PONG_LIMIT ∧ s.p1.ping_pong_count = PING_PONG_LIMIT ∧
      s.p0.pc = Pc.exited 0 ∧ s.p1.pc = Pc.exited 0) := by
  refine ⟨ten_bounded sync sch s h, ten_extend sync sch s h, ?_⟩
  intro hst
  rw [ten_complete sync sch s h hst]
  decide

theorem c1_final_count_and_exit_witness :
    runSched PING_PONG_LIMIT false (roundRobin 10 Who.r0) initSys = some finalSys ∧
    Stuck PING_PONG_LIMIT false finalSys ∧
    finalSys.p0.ping_pong_count = PING_PONG_LIMIT ∧
    finalSys.p1.ping_pong_count = PING_PONG_LIMIT ∧
    finalSys.p0.pc = Pc.exited 0 ∧ finalSys.p1.pc = Pc.exited 0 :=
  ⟨by decide, fun w => by cases w <;> rfl,
   (c1_final_count_and_exit false (roundRobin 10 Who.r0) finalSys (by decide)).2.2
     (fun w => by cases w <;> rfl)⟩

/-- C2. A process started with a number of processes other than 2 returns exit status 1
before the loop, whatever its rank: it has printed nothing to `std::cout`, has completed
no iteration, and can take no step of the loop, whatever the transport holds, so it never
sends and never receives. Only rank 0 writes the usage error. -/
theorem c2_wrong_size_exits (world_size world_rank : Int) (hne : world_size ≠ 2) :
    (mainEntry world_size world_rank).pc = Pc.exited 1 ∧
    (mainEntry world_size world_rank).out = [] ∧
    (mainEntry world_size world_rank).hist = [] ∧
    (mainEntry world_size world_rank).err = (if world_rank = 0 then usageError else []) ∧
    ∀ (limit : Int) (sync : Bool) (net : List Msg),
      procStep limit sync (mainEntry world_size world_rank) net = none := by
  have e : mainEntry world_size world_rank =
      { world_size := world_size, world_rank := world_rank,
        ping_pong_count := 0, partner_rank := 0,
        pc := Pc.exited 1, out := [],
        err := if world_rank = 0 then usageError else [],
        hist := [] } := by
    unfold mainEntry
    rw [if_pos hne]
  rw [e]
  refine ⟨rfl, rfl, rfl, rfl, ?_⟩
  intro limit sync net
  rfl

theorem c2_wrong_size_exits_witness :
    (mainEntry 3 1).pc = Pc.exited 1 ∧
    (mainEntry 3 1).out = [] ∧
    (mainEntry 3 1).hist = [] ∧
    (mainEntry 3 1).err = (if (1 : Int) = 0 then usageError else []) ∧
    ∀ (limit : Int) (sync : Bool) (net : List Msg),
      procStep limit sync (mainEntry 3 1) net = none :=
  c2_wrong_size_exits 3 1 (by decide)

/-- C3. Round `i < 10` of the exchange, at any moment of any run: the event of index
`2 * i` of the history, once it exists, is the send of round `i`, by the process of rank
`i mod 2` to the other one, and the event of index `2 * i + 1` is its reception by that
other process; the line a process prints for its iteration `i` reports a send exactly
when its rank is `i mod 2` and a reception otherwise. A run that has come to its end has
gone through all 10 rounds. Every run is finite (at most 42 steps) and can be continued
to its end, where no process can move and round `i` has taken place with these roles. -/
theorem c3_round_roles (sync : Bool) (sch : List Who) (s : Sys)
    (h : runSched PING_PONG_LIMIT sync sch initSys = some s) (i : Nat) (hi : i < 10) :
    (∀ e, s.trace[2 * i]? = some e →
      e = Event.send ((i : Int) % 2) (((i : Int) + 1) % 2) ((i : Int) + 1)) ∧
    (∀ e, s.trace[2 * i + 1]? = some e →
      e = Event.recv (((i : Int) + 1) % 2) ((i : Int) % 2) ((i : Int) + 1)) ∧
    (∀ l, s.p0.out[i]? = some l →
      l = if i % 2 = 0 then Line.sent 0 ((i : Int) + 1) 1
          else Line.received 0 ((i : Int) + 1) 1) ∧
    (∀ l, s.p1.out[i]? = some l →
      l = if i % 2 = 1 then Line.sent 1 ((i : Int) + 1) 0
          else Line.received 1 ((i : Int) + 1) 0) ∧
    (Stuck PING_PONG_LIMIT sync s →
      s.trace.length = 20 ∧ s.p0.out.length = 11 ∧ s.p1.out.length = 11) ∧
    sch.length ≤ 42 ∧
    (∃ more t, runSched PING_PONG_LIMIT sync more s = some t ∧
      Stuck PING_PONG_LIMIT sync t ∧
      t.trace[2 * i]? =
        some (Event.send ((i : Int) % 2) (((i : Int) + 1) % 2) ((i : Int) + 1)) ∧
      t.trace[2 * i + 1]? =
        some (Event.recv (((i : Int) + 1) % 2) ((i : Int) % 2) ((i : Int) + 1)) ∧
      t.p0.out[i]? =
        some (if i % 2 = 0 then Line.sent 0 ((i : Int) + 1) 1
              else Line.received 0 ((i : Int) + 1) 1) ∧
      t.p1.out[i]? =
        some (if i % 2 = 1 then Line.sent 1 ((i : Int) + 1) 0
              else Line.received 1 ((i : Int) + 1) 0)) := by
  obtain ⟨k0, k1, hs⟩ := ten_shape sync sch s h
  have hil : (i : Int) < PING_PONG_LIMIT := by unfold PING_PONG_LIMIT; omega
  refine ⟨?_, ?_, ?_, ?_, ?_, ten_bounded sync sch s h, ?_⟩
  · intro e he
    rw [hs.trace] at he
    rw [(expTrace_get _ _ e he).1, expEvent_even]
  · intro e he
    rw [hs.trace] at he
    rw [(expTrace_get _ _ e he).1, expEvent_odd]
  · intro l hl
    rw [out0_get PING_PONG_LIMIT k0 k1 s hs i hil l hl, iterLine_zero]
  · intro l hl
    rw [out1_get PING_PONG_LIMIT k0 k1 s hs i hil l hl, iterLine_one]
  · intro hst
    rw [ten_complete sync sch s h hst]
    decide
  · obtain ⟨more, hm⟩ := ten_extend_final sync sch s h
    exact ⟨more, finalSys, hm, finalSys_stuck sync, finalSys_rounds i hi⟩

theorem c3_round_roles_witness :
    (∀ e, finalSys.trace[2 * 3]? = some e →
      e = Event.send (((3 : Nat) : Int) % 2) ((((3 : Nat) : Int) + 1) % 2) (((3 : Nat) : Int) + 1)) ∧
    (∀ e, finalSys.trace[2 * 3 + 1]? = some e →
      e = Event.recv ((((3 : Nat) : Int) + 1) % 2) (((3 : Nat) : Int) % 2) (((3 : Nat) : Int) + 1)) ∧
    (∀ l, finalSys.p0.out[3]? = some l →
      l = if 3 % 2 = 0 then Line.sent 0 (((3 : Nat) : Int) + 1) 1
          else Line.received 0 (((3 : Nat) : Int) + 1) 1) ∧
    (∀ l, finalSys.p1.out[3]? = some l →
      l = if 3 % 2 = 1 then Line.sent 1 (((3 : Nat) : Int) + 1) 0
          else Line.received 1 (((3 : Nat) : Int) + 1) 0) ∧
    (Stuck PING_PONG_LIMIT false finalSys →
      finalSys.trace.length = 20 ∧ finalSys.p0.out.length = 11 ∧
      finalSys.p1.out.length = 11) ∧
    (roundRobin 10 Who.r0).length ≤ 42 ∧
    (∃ more t, runSched PING_PONG_LIMIT false more finalSys = some t ∧
      Stuck PING_PONG_LIMIT false t ∧
      t.trace[2 * 3]? =
        some (Event.send (((3 : Nat) : Int) % 2) ((((3 : Nat) : Int) + 1) % 2)
          (((3 : Nat) : Int) + 1)) ∧
      t.trace[2 * 3 + 1]? =
        some (Event.recv ((((3 : Nat) : Int) + 1) % 2) (((3 : Nat) : Int) % 2)
          (((3 : Nat) : Int) + 1)) ∧
      t.p0.out[3]? =
        some (if 3 % 2 = 0 then Line.sent 0 (((3 : Nat) : Int) + 1) 1
              else Line.received 0 (((3 : Nat) : Int) + 1) 1) ∧
      t.p1.out[3]? =
        some (if 3 % 2 = 1 then Line.sent 1 (((3 : Nat) : Int) + 1) 0
              else Line.received 1 (((3 : Nat) : Int) + 1) 0)) :=
  c3_round_roles false (roundRobin 10 Who.r0) finalSys (by decide) 3 (by decide)

/-- C4. In a run that has come to its end, the values received, in the order of
reception, are exactly 1, 2, ..., 10; and at any moment of any run the `i`-th value
received (0-indexed) is `i + 1`. Every run is finite (at most 42 steps) and can be
continued to such an end, where no process can move. -/
theorem c4_received_values (sync : Bool) (sch : List Who) (s : Sys)
    (h : runSched PING_PONG_LIMIT sync sch initSys = some s) :
    (∀ (i : Nat) (v : Int), (allRecv s.trace)[i]? = some v → v = (i : Int) + 1) ∧
    (Stuck PING_PONG_LIMIT sync s → allRecv s.trace = [1, 2, 3, 4, 5, 6, 7, 8, 9, 10]) ∧
    sch.length ≤ 42 ∧
    (∃ more t, runSched PING_PONG_LIMIT sync more s = some t ∧
      Stuck PING_PONG_LIMIT sync t ∧
      allRecv t.trace = [1, 2, 3, 4, 5, 6, 7, 8, 9, 10]) := by
  refine ⟨?_, ?_, ten_bounded sync sch s h, ?_⟩
  · intro i v hv
    obtain ⟨k0, k1, hs⟩ := ten_shape sync sch s h
    rw [hs.trace, allRecv_expTrace] at hv
    exact (expHist_get _ i v hv).1
  · intro hst
    rw [ten_complete sync sch s h hst]
    decide
  · obtain ⟨more, hm⟩ := ten_extend_final sync sch s h
    exact ⟨more, finalSys, hm, finalSys_stuck sync, by decide⟩

theorem c4_received_values_witness :
    (∀ (i : Nat) (v : Int), (allRecv finalSys.trace)[i]? = some v → v = (i : Int) + 1) ∧
    allRecv finalSys.trace = [1, 2, 3, 4, 5, 6, 7, 8, 9, 10] ∧
    (∃ more t, runSched PING_PONG_LIMIT false more initSys = some t ∧
      Stuck PING_PONG_LIMIT false t ∧
      allRecv t.trace = [1, 2, 3, 4, 5, 6, 7, 8, 9, 10]) :=
  ⟨(c4_received_values false (roundRobin 10 Who.r0) finalSys (by decide)).1,
   (c4_received_values false (roundRobin 10 Who.r0) finalSys (by decide)).2.1
     (fun w => by cases w <;> rfl),
   (c4_received_values false [] initSys rfl).2.2.2⟩

/-- C5. Every run is finite (at most 42 steps) and can be continued to its end, where no
process can move; at that end process 0 has reported sending 1, 3, 5, 7, 9 and
receiving 2, 4, 6, 8, 10, process 1 has reported sending 2, 4, 6, 8, 10 and receiving
1, 3, 5, 7, 9, each in that order, and both have reported the final count 10. A run
that cannot be continued has these logs. -/
theorem c5_logs (sync : Bool) (sch : List Who) (s : Sys)
    (h : runSched PING_PONG_LIMIT sync sch initSys = some s) :
    sch.length ≤ 42 ∧
    (∃ more t, runSched PING_PONG_LIMIT sync more s = some t ∧
      Stuck PING_PONG_LIMIT sync t ∧
      sentLog t.p0.out = [1, 3, 5, 7, 9] ∧ recvLog t.p0.out = [2, 4, 6, 8, 10] ∧
      sentLog t.p1.out = [2, 4, 6, 8, 10] ∧ recvLog t.p1.out = [1, 3, 5, 7, 9] ∧
      finalLog t.p0.out = [10] ∧ finalLog t.p1.out = [10]) ∧
    (Stuck PING_PONG_LIMIT sync s →
      sentLog s.p0.out = [1, 3, 5, 7, 9] ∧ recvLog s.p0.out = [2, 4, 6, 8, 10] ∧
      sentLog s.p1.out = [2, 4, 6, 8, 10] ∧ recvLog s.p1.out = [1, 3, 5, 7, 9] ∧
      finalLog s.p0.out = [10] ∧ finalLog s.p1.out = [10]) := by
  refine ⟨ten_bounded sync sch s h, ?_, ?_⟩
  · obtain ⟨more, hm⟩ := ten_extend_final sync sch s h
    exact ⟨more, finalSys, hm, finalSys_stuck sync, by decide⟩
  · intro hst
    rw [ten_complete sync sch s h hst]
    decide

theorem c5_logs_witness :
    (∃ more t, runSched PING_PONG_LIMIT true more initSys = some t ∧
      Stuck PING_PONG_LIMIT true t ∧
      sentLog t.p0.out = [1, 3, 5, 7, 9] ∧ recvLog t.p0.out = [2, 4, 6, 8, 10] ∧
      sentLog t.p1.out = [2, 4, 6, 8, 10] ∧ recvLog t.p1.out = [1, 3, 5, 7, 9] ∧
      finalLog t.p0.out = [10] ∧ finalLog t.p1.out = [10]) ∧
    runSched PING_PONG_LIMIT true (roundRobin 10 Who.r0) initSys = some finalSys ∧
    Stuck PING_PONG_LIMIT true finalSys ∧
    sentLog finalSys.p0.out = [1, 3, 5, 7, 9] ∧ recvLog finalSys.p0.out = [2, 4, 6, 8, 10] ∧
    sentLog finalSys.p1.out = [2, 4, 6, 8, 10] ∧ recvLog finalSys.p1.out = [1, 3, 5, 7, 9] ∧
    finalLog finalSys.p0.out = [10] ∧ finalLog finalSys.p1.out = [10] :=
  ⟨(c5_logs true [] initSys rfl).2.1,
   by decide, fun w => by cases w <;> rfl,
   (c5_logs true (roundRobin 10 Who.r0) finalSys (by decide)).2.2
     (fun w => by cases w <;> rfl)⟩

/-- C6. In every reachable state the two counters differ by at most 1, and a step in
which a process receives a message leads to a state in which they are equal. -/
theorem c6_counters_close (sync : Bool) (sch : List Who) (s : Sys)
    (h : runSched PING_PONG_LIMIT sync sch initSys = some s) :
    s.p0.ping_pong_count ≤ s.p1.ping_pong_count + 1 ∧
    s.p1.ping_pong_count ≤ s.p0.ping_pong_count + 1 ∧
    (∀ (w : Who) (t : Sys) (a b v : Int),
      sysStep PING_PONG_LIMIT sync s w = some t →
      t.trace = s.trace ++ [Event.recv a b v] →
      t.p0.ping_pong_count = t.p1.ping_pong_count) := by
  obtain ⟨k0, k1, hs⟩ := ten_shape sync sch s h
  refine ⟨?_, ?_, ?_⟩
  · rw [hs.cnt0, hs.cnt1]
    have := hs.near0
    omega
  · rw [hs.cnt0, hs.cnt1]
    have := hs.near1
    omega
  · intro w t a b v hstep htr
    obtain ⟨j0, j1, ht⟩ := shape_step PING_PONG_LIMIT sync k0 k1 s t w (by decide) hs hstep
    have hlen := congrArg List.length htr
    rw [ht.trace, hs.trace] at htr
    rw [ht.trace, hs.trace] at hlen
    simp only [expTrace_length, List.length_append, List.length_singleton] at hlen
    rw [hlen, expTrace_succ] at htr
    have he := List.append_cancel_left htr
    simp only [List.cons.injEq, and_true] at he
    have hodd := expEvent_recv_odd _ a b v he
    have n0 := ht.near0
    have n1 := ht.near1
    rw [ht.cnt0, ht.cnt1]
    have : j0 + ahead t.p0.pc = j1 + ahead t.p1.pc := by omega
    rw [this]

theorem c6_counters_close_witness :
    midSys.p0.ping_pong_count ≤ midSys.p1.ping_pong_count + 1 ∧
    midSys.p1.ping_pong_count ≤ midSys.p0.ping_pong_count + 1 ∧
    sysStep PING_PONG_LIMIT true midSys Who.r1 = some midSysRecv ∧
    midSysRecv.p0.ping_pong_count = midSysRecv.p1.ping_pong_count :=
  ⟨(c6_counters_close true [Who.r0] midSys (by decide)).1,
   (c6_counters_close true [Who.r0] midSys (by decide)).2.1,
   by decide,
   (c6_counters_close true [Who.r0] midSys (by decide)).2.2 Who.r1 midSysRecv 1 0 1
     (by decide) (by decide)⟩

/-- C7. Every run is finite (at most 42 steps) and can be continued to its end, where no
process can move and each process has completed exactly 10 iterations of the loop, with
`ping_pong_count` equal to 1, 2, ..., 10 at the end of the successive iterations. At any
moment of any run a process has completed at most 10 iterations, and the value of
`ping_pong_count` at the end of its `i`-th iteration (0-indexed) is `i + 1`, in the send
branch and in the receive branch alike; a run that cannot be continued has exactly 10
iterations in each process. -/
theorem c7_iterations (sync : Bool) (sch : List Who) (s : Sys)
    (h : runSched PING_PONG_LIMIT sync sch initSys = some s) :
    sch.length ≤ 42 ∧
    (∃ more t, runSched PING_PONG_LIMIT sync more s = some t ∧
      Stuck PING_PONG_LIMIT sync t ∧
      t.p0.hist = [1, 2, 3, 4, 5, 6, 7, 8, 9, 10] ∧
      t.p1.hist = [1, 2, 3, 4, 5, 6, 7, 8, 9, 10]) ∧
    s.p0.hist.length ≤ 10 ∧ s.p1.hist.length ≤ 10 ∧
    (∀ (i : Nat) (v : Int), s.p0.hist[i]? = some v → v = (i : Int) + 1) ∧
    (∀ (i : Nat) (v : Int), s.p1.hist[i]? = some v → v = (i : Int) + 1) ∧
    (Stuck PING_PONG_LIMIT sync s → s.p0.hist.length = 10 ∧ s.p1.hist.length = 10) := by
  obtain ⟨k0, k1, hs⟩ := ten_shape sync sch s h
  have f5 := hs.le0
  have f6 := hs.le1
  unfold PING_PONG_LIMIT at f5 f6
  refine ⟨ten_bounded sync sch s h, ?_, ?_, ?_, ?_, ?_, ?_⟩
  · obtain ⟨more, hm⟩ := ten_extend_final sync sch s h
    exact ⟨more, finalSys, hm, finalSys_stuck sync, by decide⟩
  · rw [hs.hist0, expHist_length]; omega
  · rw [hs.hist1, expHist_length]; omega
  · intro i v hv
    rw [hs.hist0] at hv
    exact (expHist_get _ i v hv).1
  · intro i v hv
    rw [hs.hist1] at hv
    exact (expHist_get _ i v hv).1
  · intro hst
    rw [ten_complete sync sch s h hst]
    decide

theorem c7_iterations_witness :
    (∃ more t, runSched PING_PONG_LIMIT true more midSys = some t ∧
      Stuck PING_PONG_LIMIT true t ∧
      t.p0.hist = [1, 2, 3, 4, 5, 6, 7, 8, 9, 10] ∧
      t.p1.hist = [1, 2, 3, 4, 5, 6, 7, 8, 9, 10]) ∧
    runSched PING_PONG_LIMIT true (roundRobin 10 Who.r0) initSys = some finalSys ∧
    Stuck PING_PONG_LIMIT true finalSys ∧
    (∀ (i : Nat) (v : Int), finalSys.p0.hist[i]? = some v → v = (i : Int) + 1) ∧
    (∀ (i : Nat) (v : Int), finalSys.p1.hist[i]? = some v → v = (i : Int) + 1) ∧
    finalSys.p0.hist.length = 10 ∧ finalSys.p1.hist.length = 10 :=
  ⟨(c7_iterations true [Who.r0] midSys (by decide)).2.1,
   by decide, fun w => by cases w <;> rfl,
   (c7_iterations true (roundRobin 10 Who.r0) finalSys (by decide)).2.2.2.2.1,
   (c7_iterations true (roundRobin 10 Who.r0) finalSys (by decide)).2.2.2.2.2.1,
   (c7_iterations true (roundRobin 10 Who.r0) finalSys (by decide)).2.2.2.2.2.2
     (fun w => by cases w <;> rfl)⟩

/-- C8. Every run is finite (at most 42 steps) and can be continued to its end, where
no process can move, no message is in flight, and the values each process has received
are exactly the values its partner has sent, in the same order: 1, 3, 5, 7, 9 from rank
0 to rank 1 and 2, 4, 6, 8, 10 from rank 1 to rank 0, so every value sent is received
once. At any moment of any run, the values a process has received are the first values
its partner has sent, in the same order; in a run that cannot be continued they are the
same lists. In round `i`, the value received is the value the partner sent in that
round, and it is the value of the receiver's `ping_pong_count` at the end of its
iteration `i`. -/
theorem c8_round_trip (sync : Bool) (sch : List Who) (s : Sys)
    (h : runSched PING_PONG_LIMIT sync sch initSys = some s) :
    sch.length ≤ 42 ∧
    (∃ more t, runSched PING_PONG_LIMIT sync more s = some t ∧
      Stuck PING_PONG_LIMIT sync t ∧ t.net = [] ∧
      sentVals 0 t.trace = [1, 3, 5, 7, 9] ∧ recvVals 1 t.trace = [1, 3, 5, 7, 9] ∧
      sentVals 1 t.trace = [2, 4, 6, 8, 10] ∧ recvVals 0 t.trace = [2, 4, 6, 8, 10]) ∧
    recvVals 1 s.trace = (sentVals 0 s.trace).take (recvVals 1 s.trace).length ∧
    recvVals 0 s.trace = (sentVals 1 s.trace).take (recvVals 0 s.trace).length ∧
    (Stuck PING_PONG_LIMIT sync s →
      recvVals 1 s.trace = sentVals 0 s.trace ∧ recvVals 0 s.trace = sentVals 1 s.trace) ∧
    (∀ (i : Nat) (b a v : Int), s.trace[2 * i + 1]? = some (Event.recv b a v) →
      s.trace[2 * i]? = some (Event.send a b v) ∧
      (b = 0 → s.p0.hist[i]? = some v) ∧ (b = 1 → s.p1.hist[i]? = some v)) := by
  obtain ⟨k0, k1, hs⟩ := ten_shape sync sch s h
  have f1 := hs.near0
  have f2 := hs.near1
  have f5 := hs.le0
  have f6 := hs.le1
  have f7 := hs.snd0
  have f8 := hs.snd1
  unfold PING_PONG_LIMIT at f5 f6
  have hm : (k0 + ahead s.p0.pc) + (k1 + ahead s.p1.pc) ≤ 20 := by omega
  refine ⟨ten_bounded sync sch s h, ?_, ?_, ?_, ?_, ?_⟩
  · obtain ⟨more, hmore⟩ := ten_extend_final sync sch s h
    exact ⟨more, finalSys, hmore, finalSys_stuck sync, by decide⟩
  · rw [hs.trace]
    exact (roundtrip_check _ hm).1
  · rw [hs.trace]
    exact (roundtrip_check _ hm).2
  · intro hst
    rw [ten_complete sync sch s h hst]
    decide
  · intro i b a v he
    rw [hs.trace] at he
    obtain ⟨e1, e2⟩ := expTrace_get _ _ _ he
    rw [expEvent_odd] at e1
    simp only [Event.recv.injEq] at e1
    obtain ⟨rfl, rfl, rfl⟩ := e1
    refine ⟨?_, ?_, ?_⟩
    · rw [hs.trace, expTrace_get_lt _ _ (by omega), expEvent_even]
    · intro hb
      have hk : i < k0 := by
        rcases hs.pc0 with c | c | ⟨c, -⟩
        · simp only [c, ahead_loop, Nat.add_zero] at f1 f2 e2; omega
        · have := f7 c
          simp only [c, ahead_inSend] at f1 f2 e2; omega
        · simp only [c, ahead_exited, Nat.add_zero] at f1 f2 e2; omega
      rw [hs.hist0, expHist_get_lt _ _ hk]
    · intro hb
      have hk : i < k1 := by
        rcases hs.pc1 with c | c | ⟨c, -⟩
        · simp only [c, ahead_loop, Nat.add_zero] at f1 f2 e2; omega
        · have := f8 c
          simp only [c, ahead_inSend] at f1 f2 e2; omega
        · simp only [c, ahead_exited, Nat.add_zero] at f1 f2 e2; omega
      rw [hs.hist1, expHist_get_lt _ _ hk]

theorem c8_round_trip_witness :
    (∃ more t, runSched PING_PONG_LIMIT false more midSys = some t ∧
      Stuck PING_PONG_LIMIT false t ∧ t.net = [] ∧
      sentVals 0 t.trace = [1, 3, 5, 7, 9] ∧ recvVals 1 t.trace = [1, 3, 5, 7, 9] ∧
      sentVals 1 t.trace = [2, 4, 6, 8, 10] ∧ recvVals 0 t.trace = [2, 4, 6, 8, 10]) ∧
    runSched PING_PONG_LIMIT false (roundRobin 10 Who.r0) initSys = some finalSys ∧
    Stuck PING_PONG_LIMIT false finalSys ∧
    recvVals 1 finalSys.trace = sentVals 0 finalSys.trace ∧
    recvVals 0 finalSys.trace = sentVals 1 finalSys.trace ∧
    finalSys.trace[2 * 4]? = some (Event.send 0 1 5) ∧
    finalSys.p1.hist[4]? = some 5 :=
  ⟨(c8_round_trip false [Who.r0] midSys (by decide)).2.1,
   by decide, fun w => by cases w <;> rfl,
   ((c8_round_trip false (roundRobin 10 Who.r0) finalSys (by decide)).2.2.2.2.1
      (fun w => by cases w <;> rfl)).1,
   ((c8_round_trip false (roundRobin 10 Who.r0) finalSys (by decide)).2.2.2.2.1
      (fun w => by cases w <;> rfl)).2,
   ((c8_round_trip false (roundRobin 10 Who.r0) finalSys (by decide)).2.2.2.2.2 4 1 0 5
      (by decide)).1,
   ((c8_round_trip false (roundRobin 10 Who.r0) finalSys (by decide)).2.2.2.2.2 4 1 0 5
      (by decide)).2.2 rfl⟩

/-- C9. Whether `MPI_Send` returns at once (`sync = false`) or only after the partner
has received (`sync = true`): in every reachable state at most one message is in
flight, and unless both processes have left the loop and returned, some process can
take a step. -/
theorem c9_no_deadlock (sync : Bool) (sch : List Who) (s : Sys)
    (h : runSched PING_PONG_LIMIT sync sch initSys = some s) :
    s.net.length ≤ 1 ∧
    (¬ BothExited s → ∃ w t, sysStep PING_PONG_LIMIT sync s w = some t) := by
  obtain ⟨k0, k1, hs⟩ := ten_shape sync sch s h
  constructor
  · rw [hs.net]
    exact netOf_length _ _
  · intro hne
    exact progress PING_PONG_LIMIT sync k0 k1 s hs hne

theorem c9_no_deadlock_witness :
    midSys.net.length ≤ 1 ∧
    (¬ BothExited midSys → ∃ w t, sysStep PING_PONG_LIMIT true midSys w = some t) :=
  c9_no_deadlock true [Who.r0] midSys (by decide)

/-- C10 as stated fails for a limit an `int` cannot hold: with `2147483648` (that is
`INT_MAX + 1`) in place of `PING_PONG_LIMIT`, no run, in either mode of `MPI_Send`,
reaches a state in which the counter of a process equals the limit. -/
theorem c10_limit_beyond_int :
    ¬ ∃ (sync : Bool) (sch : List Who) (s : Sys),
      runSched 2147483648 sync sch initSys = some s ∧
      (s.p0.ping_pong_count = 2147483648 ∨ s.p1.ping_pong_count = 2147483648) := by
  rintro ⟨sync, sch, s, h, hc⟩
  have hb := run_bounded 2147483648 sync sch initSys s (by decide) (by decide)
    (by intro m hm; simp [initSys] at hm) h
  unfold INT_MAX at hb
  omega

/-- C10, as amended. For every round limit `N` that an `int` can hold, `0 ≤ N ≤ INT_MAX`,
and in both modes of `MPI_Send`: every run has at most `4 * N + 2` steps, every run can
be continued until no process can move, some process can move unless both have returned
(no process waits for a message that is never sent), and a run that cannot be continued
has ended with both counters equal to `N`, both processes returned with exit code 0,
exactly `N` messages sent, exactly `N` received and none in flight. -/
theorem c10_any_limit (N : Int) (h0 : 0 ≤ N) (hmax : N ≤ INT_MAX) (sync : Bool)
    (sch : List Who) (s : Sys) (h : runSched N sync sch initSys = some s) :
    sch.length ≤ 4 * N.toNat + 2 ∧
    (∃ more t, runSched N sync more s = some t ∧ Stuck N sync t) ∧
    (¬ BothExited s → ∃ w t, sysStep N sync s w = some t) ∧
    (Stuck N sync s →
      s.p0.ping_pong_count = N ∧ s.p1.ping_pong_count = N ∧
      s.p0.pc = Pc.exited 0 ∧ s.p1.pc = Pc.exited 0 ∧
      (numSends s.trace : Int) = N ∧ (numRecvs s.trace : Int) = N ∧ s.net = []) := by
  obtain ⟨k0, k1, hs⟩ := shape_reachable N sync h0 hmax sch s h
  refine ⟨?_, ?_, ?_, ?_⟩
  · have h1 := run_measure N sync sch initSys s h
    have h2 := shape_measure N k0 k1 s hs
    omega
  · obtain ⟨more, t, ht, hb⟩ := completion N sync hmax _ s k0 k1 hs (Nat.le_refl _)
    exact ⟨more, t, ht, exited_stuck N sync t hb⟩
  · intro hne
    exact progress N sync k0 k1 s hs hne
  · intro hst
    have hb := stuck_exited N sync k0 k1 s hs hst
    obtain ⟨e1, e2, e3, e4, e5, e6, e7, e8, -, -, -, -⟩ := shape_exited N k0 k1 s hs hb
    have hk : k1 = k0 := by omega
    have e : k0 + k1 = 2 * k0 := by omega
    rw [e] at e8
    refine ⟨e5, e6, e3, e4, ?_, ?_, e7⟩
    · rw [e8, (numSends_expTrace k0).1]; exact e1
    · rw [e8, (numSends_expTrace k0).2]; exact e1

theorem c10_any_limit_witness :
    runSched 3 true (roundRobin 3 Who.r0) initSys = some finalSysThree ∧
    Stuck 3 true finalSysThree ∧
    finalSysThree.p0.ping_pong_count = 3 ∧ finalSysThree.p1.ping_pong_count = 3 ∧
    finalSysThree.p0.pc = Pc.exited 0 ∧ finalSysThree.p1.pc = Pc.exited 0 ∧
    (numSends finalSysThree.trace : Int) = 3 ∧ (numRecvs finalSysThree.trace : Int) = 3 ∧
    finalSysThree.net = [] :=
  ⟨by decide, fun w => by cases w <;> rfl,
   (c10_any_limit 3 (by decide) (by decide) true (roundRobin 3 Who.r0) finalSysThree
     (by decide)).2.2.2 (fun w => by cases w <;> rfl)⟩

end PingPong
